import Mathlib

/-!
Shallow embedding of the unwind-info generation subsystem
(`src/debuginfo/unwind.rs` of the cranelift codegen backend), together
with proofs of the specified properties.

Pure data is translated directly; the mutable `Module`, `ObjectProduct`
and JIT state are threaded explicitly.  Panics (`unwrap`,
`unimplemented!`) are modelled by `Option` results where the claims
depend on them.
-/

namespace Unwind

/-- `cranelift_codegen::ir::Endianness`. -/
inductive Endianness where
  | Little
  | Big
deriving DecidableEq, Repr

/-- `gimli::RunTimeEndian` (only the two variants this code produces). -/
inductive RunTimeEndian where
  | Little
  | Big
deriving DecidableEq, Repr

/-- `gimli::DW_EH_PE_absptr` (pointer-encoding constant `0x00`). -/
def DW_EH_PE_absptr : Nat := 0x00

/-- `gimli::DW_EH_PE_pcrel` (pointer-encoding constant `0x10`). -/
def DW_EH_PE_pcrel : Nat := 0x10

/-- `gimli::DW_EH_PE_sdata4` (pointer-encoding constant `0x0b`). -/
def DW_EH_PE_sdata4 : Nat := 0x0b

/-- Addresses handed to gimli: `address_for_func` / `address_for_data`
from `debuginfo/emit.rs` wrap a function or data symbol id. -/
inductive Address where
  | func (id : Nat)
  | data (id : Nat)
deriving DecidableEq, Repr

/-- `gimli::write::CommonInformationEntry`, restricted to the fields the
code reads or writes.  `code_alignment` etc. stay inside `rest`. -/
structure CIE where
  fde_address_encoding : Nat
  lsda_encoding : Option Nat
  personality : Option (Nat × Address)
  rest : List Nat := []
deriving DecidableEq, Repr

/-- `cranelift_codegen::isa::unwind::systemv::UnwindInfo`: the data
`to_fde` consumes (length of the function plus CFI instructions). -/
structure SystemVInfo where
  len : Nat
  instructions : List Nat
deriving DecidableEq, Repr

/-- `gimli::write::FrameDescriptionEntry` as produced by `to_fde` and
then mutated by `add_function` (its `lsda` field). -/
structure FDE where
  address : Address
  len : Nat
  instructions : List Nat
  lsda : Option Address
deriving DecidableEq, Repr

/-- `systemv::UnwindInfo::to_fde`: build an FDE anchored at the given
address; the `lsda` field starts out unset. -/
def SystemVInfo.to_fde (info : SystemVInfo) (address : Address) : FDE :=
  { address := address, len := info.len, instructions := info.instructions, lsda := none }

/-- `gimli::write::FrameTable`: the committed CIEs and the FDEs, each
FDE paired with the `CieId` (index into `cies`) it references. -/
structure FrameTable where
  cies : List CIE
  fdes : List (Nat × FDE)
deriving DecidableEq, Repr

/-- `FrameTable::default()`. -/
def FrameTable.default : FrameTable := { cies := [], fdes := [] }

/-- `FrameTable::add_cie`: commit a CIE, returning its id. -/
def FrameTable.add_cie (t : FrameTable) (cie : CIE) : FrameTable × Nat :=
  ({ t with cies := t.cies ++ [cie] }, t.cies.length)

/-- `FrameTable::add_fde`: append an FDE under a CIE id. -/
def FrameTable.add_fde (t : FrameTable) (cie_id : Nat) (fde : FDE) : FrameTable :=
  { t with fdes := t.fdes ++ [(cie_id, fde)] }

/-- `cranelift_codegen::isa::unwind::UnwindInfo`: the closed variant set
`add_function` matches on.  `other` stands for every present-or-future
variant besides the two named ones (the `unwind_info =>` arm). -/
inductive UnwindInfo where
  | SystemV (info : SystemVInfo)
  | WindowsX64 (info : List Nat)
  | other (tag : Nat)
deriving DecidableEq, Repr

/-- `cranelift` value types, restricted to those the code names. -/
inductive CType where
  | I32
  | I64
  | ptr (bits : Nat)
deriving DecidableEq, Repr

/-- `cranelift_module::Linkage` (only the variant this code uses). -/
inductive Linkage where
  | Import
deriving DecidableEq, Repr

/-- `cranelift_codegen::ir::Signature` as built in `UnwindContext::new`. -/
structure Signature where
  params : List CType
  returns : List CType
  call_conv : Nat
deriving DecidableEq, Repr

/-- `TargetFrontendConfig`: the two fields the code queries. -/
structure TargetConfig where
  pointer_ty : CType
  default_call_conv : Nat
deriving DecidableEq, Repr

/-- `cranelift_module::DataDescription` restricted to what
`add_function` sets: the defined bytes and the segment/section pair. -/
structure DataDescription where
  init : List Nat
  segment_section : Option (String × String)
deriving DecidableEq, Repr

/-- The `Module` trait object, as the state `UnwindContext` threads:
the target facts it queries plus the declarations and data definitions
it adds.  `linkage_name` models
`declarations().get_function_decl(id).linkage_name(id)` as a pure map
from function ids to name bytes. -/
structure ModuleState where
  isa_endianness : Endianness
  systemv_cie : Option CIE
  target_config : TargetConfig
  linkage_name : Nat → List Nat
  func_decls : List (String × Linkage × Signature)
  data_decl_count : Nat
  data_defs : List (Nat × DataDescription)

/-- `Module::declare_function` (always succeeds in this model; the
code unwraps the result). -/
def ModuleState.declare_function (m : ModuleState) (name : String)
    (linkage : Linkage) (sig : Signature) : ModuleState × Nat :=
  ({ m with func_decls := m.func_decls ++ [(name, linkage, sig)] }, m.func_decls.length)

/-- `Module::declare_anonymous_data`: returns a fresh data id. -/
def ModuleState.declare_anonymous_data (m : ModuleState)
    (_writable _tls : Bool) : ModuleState × Nat :=
  ({ m with data_decl_count := m.data_decl_count + 1 }, m.data_decl_count)

/-- `Module::define_data` (always succeeds in this model). -/
def ModuleState.define_data (m : ModuleState) (id : Nat)
    (data : DataDescription) : ModuleState :=
  { m with data_defs := m.data_defs ++ [(id, data)] }

/-- The `UnwindContext` struct. -/
structure UnwindContext where
  endian : RunTimeEndian
  frame_table : FrameTable
  cie_id : Option Nat

/-- `UnwindContext::new`. -/
def UnwindContext.new (module : ModuleState) (pic_eh_frame : Bool) :
    ModuleState × UnwindContext :=
  let endian := match module.isa_endianness with
    | .Little => RunTimeEndian.Little
    | .Big => RunTimeEndian.Big
  let frame_table := FrameTable.default
  match module.systemv_cie with
  | some cie =>
    let cie :=
      if pic_eh_frame then
        { cie with
          fde_address_encoding := DW_EH_PE_pcrel ||| DW_EH_PE_sdata4,
          lsda_encoding := some (DW_EH_PE_pcrel ||| DW_EH_PE_sdata4) }
      else
        { cie with
          fde_address_encoding := DW_EH_PE_absptr,
          lsda_encoding := some DW_EH_PE_absptr }
    let (module, personality) := module.declare_function "rust_eh_personality" .Import
      { params := [CType.I32, CType.I32, CType.I64,
                   module.target_config.pointer_ty, module.target_config.pointer_ty],
        returns := [CType.I32],
        call_conv := module.target_config.default_call_conv }
    let cie := { cie with
      personality := some (DW_EH_PE_pcrel ||| DW_EH_PE_sdata4, Address.func personality) }
    let (frame_table, cie_id) := frame_table.add_cie cie
    (module, { endian := endian, frame_table := frame_table, cie_id := some cie_id })
  | none =>
    (module, { endian := endian, frame_table := frame_table, cie_id := none })

/-- `UnwindContext::add_function`.  The compiled function's
`create_unwind_info` result is the `unwind_info` argument; `none`
models a function without unwind info.  A `none` result models a panic
(`cie_id.unwrap()` on a context without a CIE, or the
`unimplemented!` arm). -/
def UnwindContext.add_function (self : UnwindContext) (module : ModuleState)
    (func_id : Nat) (unwind_info : Option UnwindInfo) :
    Option (ModuleState × UnwindContext) :=
  match unwind_info with
  | none => some (module, self)
  | some (.SystemV info) =>
    let fde := info.to_fde (Address.func func_id)
    let (module, lsda) := module.declare_anonymous_data false false
    let data : DataDescription :=
      { init := module.linkage_name func_id ++ [0],
        segment_section := some ("", ".cranelift_except_table") }
    let module := module.define_data lsda data
    let fde := { fde with lsda := some (Address.data lsda) }
    match self.cie_id with
    | some cie_id =>
      some (module, { self with frame_table := self.frame_table.add_fde cie_id fde })
    | none => none
  | some (.WindowsX64 _) => some (module, self)
  | some (.other _) => none

/-! ## Serialization (`.eh_frame` wire format)

`FrameTable::write_eh_frame` lives in the external `gimli` crate and
`WriterRelocate` in `debuginfo/emit.rs`, neither of which is among the
provided sources; both are modelled from the spec below.  The spec
fixes the framing (length-prefixed records, the shared encoding record
distinguished from function records by its id field, the shared record
written once when first referenced, relocations tying byte offsets to
symbols), not the field-by-field byte layout, so record bodies keep
that framing while abbreviating payload fields. -/

/-- A relocation produced during serialization: a byte offset inside
the section tied to a symbol to be resolved later. -/
structure Reloc where
  offset : Nat
  target : Address
deriving DecidableEq, Repr

/-- Little- or big-endian 4-byte encoding of `n % 2^32`. -/
def u32bytes (e : RunTimeEndian) (n : Nat) : List Nat :=
  let n := n % 2 ^ 32
  let bs := [n % 256, n / 256 % 256, n / 256 ^ 2 % 256, n / 256 ^ 3 % 256]
  match e with
  | .Little => bs
  | .Big => bs.reverse

/-- Little- or big-endian 8-byte encoding of `n % 2^64`. -/
def u64bytes (e : RunTimeEndian) (n : Nat) : List Nat :=
  let n := n % 2 ^ 64
  let bs := [n % 256, n / 256 % 256, n / 256 ^ 2 % 256, n / 256 ^ 3 % 256,
             n / 256 ^ 4 % 256, n / 256 ^ 5 % 256, n / 256 ^ 6 % 256, n / 256 ^ 7 % 256]
  match e with
  | .Little => bs
  | .Big => bs.reverse

/-- Read an unsigned 32-bit value at byte offset `off` of `buf`
(out-of-range bytes read as 0, each byte taken mod 256). -/
def readU32 (e : RunTimeEndian) (buf : List Nat) (off : Nat) : Nat :=
  let b := fun i => buf.getD (off + i) 0 % 256
  match e with
  | .Little => b 0 + 256 * b 1 + 256 ^ 2 * b 2 + 256 ^ 3 * b 3
  | .Big => b 3 + 256 * b 2 + 256 ^ 2 * b 1 + 256 ^ 3 * b 0

/-- Modelled from the spec: the body of the serialized shared encoding
record (CIE).  Its id field (the first 4 bytes) is zero, which is what
distinguishes it from function records; then the template payload, the
address-encoding fields and the optional personality reference, whose
address field is a placeholder covered by a relocation. -/
def cieBody (e : RunTimeEndian) (cie : CIE) : List Nat × List Reloc :=
  let head := u32bytes e 0 ++ cie.rest ++ [cie.fde_address_encoding % 256] ++
    (match cie.lsda_encoding with
     | some enc => [1, enc % 256]
     | none => [0])
  match cie.personality with
  | some (enc, addr) =>
    (head ++ [1, enc % 256] ++ List.replicate 8 0, [⟨head.length + 2, addr⟩])
  | none => (head ++ [0], [])

/-- Modelled from the spec: the body of a serialized function record
(FDE).  Its id field is the (nonzero) distance back to the shared
record it references; the anchoring address, the optional auxiliary
data reference and their relocations follow, then the recovery
opcodes. -/
def fdeBody (e : RunTimeEndian) (cie_ptr : Nat) (fde : FDE) : List Nat × List Reloc :=
  let head := u32bytes e cie_ptr ++ List.replicate 8 0 ++ u64bytes e fde.len
  match fde.lsda with
  | some a =>
    (head ++ [1] ++ List.replicate 8 0 ++ fde.instructions.map (· % 256),
     [⟨4, fde.address⟩, ⟨head.length + 1, a⟩])
  | none =>
    (head ++ [0] ++ fde.instructions.map (· % 256), [⟨4, fde.address⟩])

/-- Serializer state: bytes written so far, relocations (with offsets
already absolute), and for each CIE the offset at which it was written,
if it has been. -/
structure WriterState where
  bytes : List Nat
  relocs : List Reloc
  cie_offsets : List (Option Nat)
deriving Repr

/-- Append one length-prefixed record to the stream, shifting the
body-relative relocations to absolute offsets. -/
def appendEntry (e : RunTimeEndian) (st : WriterState)
    (body : List Nat × List Reloc) : WriterState :=
  { st with
    bytes := st.bytes ++ u32bytes e body.1.length ++ body.1,
    relocs := st.relocs ++ body.2.map (fun r => ⟨st.bytes.length + 4 + r.offset, r.target⟩) }

/-- A CIE looked up with an out-of-range id (impossible for tables
built through `add_cie`). -/
def defaultCIE : CIE := { fde_address_encoding := 0, lsda_encoding := none, personality := none }

/-- Modelled from the spec: serialize one function record, writing its
shared encoding record first if this is the first reference to it. -/
def writeFde (e : RunTimeEndian) (cies : List CIE) (st : WriterState)
    (entry : Nat × FDE) : WriterState :=
  match st.cie_offsets.getD entry.1 none with
  | some off =>
    appendEntry e st (fdeBody e (st.bytes.length + 4 - off) entry.2)
  | none =>
    let cie_off := st.bytes.length
    let st := appendEntry e st (cieBody e (cies.getD entry.1 defaultCIE))
    let st := { st with cie_offsets := st.cie_offsets.set entry.1 (some cie_off) }
    appendEntry e st (fdeBody e (st.bytes.length + 4 - cie_off) entry.2)

/-- Serialized section: the bytes and the relocations produced. -/
structure EhFrameOut where
  bytes : List Nat
  relocs : List Reloc
deriving DecidableEq, Repr

/-- Modelled from the spec: `gimli::write::FrameTable::write_eh_frame`
serializes the table into the call-frame-information wire format —
each function record in insertion order, preceded by its shared
encoding record the first time that record is referenced; a table
whose functions produced no records serializes to nothing. -/
def FrameTable.write_eh_frame (t : FrameTable) (e : RunTimeEndian) : EhFrameOut :=
  let st := t.fdes.foldl (writeFde e t.cies)
    { bytes := [], relocs := [], cie_offsets := t.cies.map (fun _ => none) }
  { bytes := st.bytes, relocs := st.relocs }

/-- Decode the framing of a serialized section: for each
length-prefixed record report whether it is a shared encoding record
(id field zero) or a function record. -/
def parseEntries (e : RunTimeEndian) (bytes : List Nat) : List Bool :=
  if h : bytes = [] then []
  else
    let len := readU32 e bytes 0
    let body := (bytes.drop 4).take len
    decide (readU32 e body 0 = 0) :: parseEntries e (bytes.drop (4 + len))
termination_by bytes.length
decreasing_by
  simp only [List.length_drop]
  exact Nat.sub_lt (List.length_pos.mpr h) (Nat.succ_le_of_lt (Nat.lt_of_lt_of_le
    (Nat.zero_lt_succ 3) (Nat.le_add_right 4 _)))

/-! ## Object emission -/

/-- The section ids `gimli::write::Section::id` can return; this code
only ever adds the `.eh_frame` one. -/
inductive SectionId where
  | EhFrame
deriving DecidableEq, Repr

/-- `cranelift_object::ObjectProduct`, restricted to what `emit`
touches: the debug sections added and the relocations replayed against
them (keyed by the index of the section they target). -/
structure ObjectProduct where
  sections : List (SectionId × List Nat)
  relocs : List (Nat × Reloc)
deriving DecidableEq, Repr

/-- `WriteDebugInfo::add_debug_section`: add a named debug section,
returning its id. -/
def ObjectProduct.add_debug_section (p : ObjectProduct) (id : SectionId)
    (bytes : List Nat) : ObjectProduct × Nat :=
  ({ p with sections := p.sections ++ [(id, bytes)] }, p.sections.length)

/-- `WriteDebugInfo::add_debug_reloc`: replay one relocation against a
section. -/
def ObjectProduct.add_debug_reloc (p : ObjectProduct) (section_id : Nat)
    (r : Reloc) : ObjectProduct :=
  { p with relocs := p.relocs ++ [(section_id, r)] }

/-- `UnwindContext::emit` (consumes the context). -/
def UnwindContext.emit (self : UnwindContext) (product : ObjectProduct) : ObjectProduct :=
  let eh_frame := self.frame_table.write_eh_frame self.endian
  if eh_frame.bytes.isEmpty then
    product
  else
    let (product, section_id) := product.add_debug_section SectionId.EhFrame eh_frame.bytes
    eh_frame.relocs.foldl (fun p r => p.add_debug_reloc section_id r) product

/-! ## Runtime registration (just-in-time path) -/

/-- The compile-time platform split of `register_jit`: the
`cfg(windows)` body, the `cfg(target_os = "macos")` body, and the body
for every other (unix) platform. -/
inductive Platform where
  | windows
  | macos
  | otherUnix
deriving DecidableEq, Repr

/-- Overwrite `vals` into `buf` starting at offset `off`. -/
def writeAt (buf : List Nat) (off : Nat) (vals : List Nat) : List Nat :=
  buf.take off ++ vals ++ buf.drop (off + vals.length)

/-- Modelled from the spec: `WriterRelocate::relocate_for_jit` (in
`debuginfo/emit.rs`, not among the provided sources) resolves every
relocation immediately against the module's known in-memory addresses,
patching each relocated address field in place and leaving every other
byte unchanged. -/
def relocate_for_jit (e : RunTimeEndian) (bytes : List Nat) (relocs : List Reloc)
    (addr_of : Address → Nat) : List Nat :=
  relocs.foldl (fun buf r => writeAt buf r.offset (u64bytes e (addr_of r.target))) bytes

/-- One iteration bound of the macOS walking loop, with explicit fuel:
read a 4-byte length at `current`, call `__register_frame` (record the
offset) unless `current` is the start of the buffer, advance by the
length plus 4, stop once past the end.  Each iteration advances
`current` by at least 4, so `buf.length` iterations of fuel always
cover the loop: the fuel-exhausted branch is reached only with
`current` already past the end, where the loop would stop anyway. -/
def macosWalkAux (e : RunTimeEndian) (buf : List Nat) : Nat → Nat → List Nat
  | _, 0 => []
  | current, fuel + 1 =>
    if current < buf.length then
      let len := readU32 e buf current
      (if current ≠ 0 then [current] else []) ++ macosWalkAux e buf (current + (len + 4)) fuel
    else []

/-- The `__register_frame` calls made while walking the buffer on
macOS, as byte offsets into the buffer (the loop in
`register_jit`). -/
def macosWalk (e : RunTimeEndian) (buf : List Nat) : List Nat :=
  macosWalkAux e buf 0 buf.length

/-- Outcome of `register_jit`: the offsets passed to the
frame-registration primitive `__register_frame`, and the
process-lifetime buffer (`ManuallyDrop`), if one was produced. -/
structure RegisterJitResult where
  calls : List Nat
  buffer : Option (List Nat)
deriving DecidableEq, Repr

/-- `UnwindContext::register_jit` (consumes the context).  The
`platform` argument selects among the three `cfg`-conditional bodies;
`addr_of` supplies the module's final in-memory addresses. -/
def UnwindContext.register_jit (self : UnwindContext) (platform : Platform)
    (addr_of : Address → Nat) : RegisterJitResult :=
  match platform with
  | .windows => { calls := [], buffer := none }
  | _ =>
    let eh_frame := self.frame_table.write_eh_frame self.endian
    if eh_frame.bytes.isEmpty then
      { calls := [], buffer := none }
    else
      let buf := relocate_for_jit self.endian eh_frame.bytes eh_frame.relocs addr_of
      let buf := buf ++ [0, 0, 0, 0]
      match platform with
      | .macos => { calls := macosWalk self.endian buf, buffer := some buf }
      | _ => { calls := [0], buffer := some buf }

/-! ## Derived notions and sample inputs used by the statements -/

/-- Run a sequence of `add_function` calls (function id and the
compiled function's unwind info each), threading the module and the
context and stopping at the first panic. -/
def addAll (module : ModuleState) (ctx : UnwindContext) :
    List (Nat × Option UnwindInfo) → Option (ModuleState × UnwindContext)
  | [] => some (module, ctx)
  | (fid, ui) :: rest =>
    match ctx.add_function module fid ui with
    | some (module, ctx) => addAll module ctx rest
    | none => none

/-- Unwind-info inputs on which `add_function` is a no-op by
construction: a function without unwind info, or the Windows-x64
placeholder variant. -/
def isSkippable : Option UnwindInfo → Bool
  | none => true
  | some (.WindowsX64 _) => true
  | _ => false

/-- A stream of length-prefixed records, one per body. -/
def entryStream (e : RunTimeEndian) (bodies : List (List Nat)) : List Nat :=
  (bodies.map fun b => u32bytes e b.length ++ b).flatten

/-- A sample encoding-record template as a target would supply it. -/
def sampleCIE : CIE :=
  { fde_address_encoding := 7, lsda_encoding := none, personality := none, rest := [9, 9] }

/-- A sample module whose target supports the unwind model. -/
def sampleModule : ModuleState :=
  { isa_endianness := .Little,
    systemv_cie := some sampleCIE,
    target_config := { pointer_ty := .ptr 64, default_call_conv := 3 },
    linkage_name := fun i => [65 + i, 66],
    func_decls := [],
    data_decl_count := 0,
    data_defs := [] }

/-- A sample module whose target supplies no encoding record. -/
def noCieModule : ModuleState := { sampleModule with systemv_cie := none }

/-- Sample System-V unwind info for one compiled function. -/
def sampleInfo : SystemVInfo := { len := 16, instructions := [1, 2] }

/-- The module after constructing a (non-PIC) context against
`sampleModule`. -/
def builtModule : ModuleState := (UnwindContext.new sampleModule false).1

/-- A (non-PIC) context constructed against `sampleModule`. -/
def builtCtx : UnwindContext := (UnwindContext.new sampleModule false).2

/-- `builtCtx` after one successful System-V `add_function` call:
a context with exactly one function record. -/
def oneFdeCtx : UnwindContext :=
  match builtCtx.add_function builtModule 0 (some (.SystemV sampleInfo)) with
  | some p => p.2
  | none => builtCtx

/-- Sample final in-memory addresses for the just-in-time path. -/
def sampleAddr : Address → Nat
  | .func i => 4096 + 64 * i
  | .data i => 8192 + 64 * i

/-- An object product with no sections and no relocations yet. -/
def emptyProduct : ObjectProduct := { sections := [], relocs := [] }

/-- The common encoding record `UnwindContext.new` commits against
`sampleModule` with the position-independence flag false. -/
def builtCIE : CIE :=
  { fde_address_encoding := 0, lsda_encoding := some 0,
    personality := some (27, Address.func 0), rest := [9, 9] }

/-! ## Theorems -/

lemma u32bytes_length (e : RunTimeEndian) (n : Nat) : (u32bytes e n).length = 4 := by
  cases e <;> simp [u32bytes]

lemma readU32_u32bytes (e : RunTimeEndian) (n : Nat) (rest : List Nat) :
    readU32 e (u32bytes e n ++ rest) 0 = n % 2 ^ 32 := by
  cases e <;>
    · simp only [u32bytes, readU32, List.reverse_cons, List.reverse_nil, List.nil_append,
        List.cons_append, List.append_assoc, List.getD_cons_zero, List.getD_cons_succ,
        Nat.zero_add]
      omega

lemma parseEntries_nil (e : RunTimeEndian) : parseEntries e [] = [] := by
  rw [parseEntries]
  simp

lemma parseEntries_cons (e : RunTimeEndian) (body rest : List Nat)
    (hlt : body.length < 2 ^ 32) :
    parseEntries e (u32bytes e body.length ++ body ++ rest) =
      decide (readU32 e body 0 = 0) :: parseEntries e rest := by
  have hne : u32bytes e body.length ++ body ++ rest ≠ [] := by
    intro h
    have := congrArg List.length h
    simp [u32bytes_length] at this
  have hlen : readU32 e (u32bytes e body.length ++ body ++ rest) 0 = body.length := by
    rw [List.append_assoc, readU32_u32bytes]
    exact Nat.mod_eq_of_lt hlt
  have hdrop4 : (u32bytes e body.length ++ body ++ rest).drop 4 = body ++ rest := by
    rw [List.append_assoc]
    exact List.drop_left' (u32bytes_length e _)
  have hdropAll : (u32bytes e body.length ++ body ++ rest).drop (4 + body.length) = rest := by
    have hl : (u32bytes e body.length ++ body).length = 4 + body.length := by
      simp [u32bytes_length]
    exact List.drop_left' hl
  rw [parseEntries, dif_neg hne]
  simp only [hlen, hdrop4, hdropAll, List.take_left' rfl]

lemma entryStream_append (e : RunTimeEndian) (xs ys : List (List Nat)) :
    entryStream e (xs ++ ys) = entryStream e xs ++ entryStream e ys := by
  simp [entryStream]

lemma parseEntries_entryStream (e : RunTimeEndian) (bodies : List (List Nat))
    (h : ∀ b ∈ bodies, b.length < 2 ^ 32) :
    parseEntries e (entryStream e bodies) =
      bodies.map fun b => decide (readU32 e b 0 = 0) := by
  induction bodies with
  | nil => simp [entryStream, parseEntries_nil]
  | cons b bs ih =>
    have hb := h b (List.mem_cons_self _ _)
    have hbs := fun x hx => h x (List.mem_cons_of_mem _ hx)
    have hshape : entryStream e (b :: bs) = u32bytes e b.length ++ b ++ entryStream e bs := by
      simp [entryStream, List.append_assoc]
    rw [hshape, parseEntries_cons e b _ hb, ih hbs, List.map_cons]

lemma appendEntry_length (e : RunTimeEndian) (st : WriterState)
    (body : List Nat × List Reloc) :
    (appendEntry e st body).bytes.length = st.bytes.length + 4 + body.1.length := by
  simp [appendEntry, u32bytes_length]
  omega

lemma writeFde_length_le (e : RunTimeEndian) (cies : List CIE) (st : WriterState)
    (f : Nat × FDE) : st.bytes.length ≤ (writeFde e cies st f).bytes.length := by
  unfold writeFde
  cases h : st.cie_offsets.getD f.1 none with
  | some off =>
    rw [appendEntry_length]
    omega
  | none =>
    have h1 := appendEntry_length e st (cieBody e (cies.getD f.1 defaultCIE))
    rw [appendEntry_length]
    simp only [h1]
    omega

lemma foldl_writeFde_length_le (e : RunTimeEndian) (cies : List CIE)
    (fs : List (Nat × FDE)) (st : WriterState) :
    st.bytes.length ≤ (fs.foldl (writeFde e cies) st).bytes.length := by
  induction fs generalizing st with
  | nil => exact Nat.le_refl _
  | cons f fs ih => exact Nat.le_trans (writeFde_length_le e cies st f) (ih _)

lemma fdeBody_kind (e : RunTimeEndian) (p : Nat) (fde : FDE) :
    readU32 e (fdeBody e p fde).1 0 = p % 2 ^ 32 := by
  unfold fdeBody
  cases h : fde.lsda <;>
    · simp only [List.append_assoc]
      exact readU32_u32bytes e p _

lemma cieBody_kind (e : RunTimeEndian) (cie : CIE) :
    readU32 e (cieBody e cie).1 0 = 0 := by
  unfold cieBody
  cases h : cie.personality <;>
    · simp only [List.append_assoc]
      rw [readU32_u32bytes]
      simp

lemma fdeBody_length4 (e : RunTimeEndian) (p : Nat) (fde : FDE) :
    4 ≤ (fdeBody e p fde).1.length := by
  unfold fdeBody
  cases h : fde.lsda <;>
    · simp [u32bytes_length]

lemma cieBody_length4 (e : RunTimeEndian) (cie : CIE) :
    4 ≤ (cieBody e cie).1.length := by
  unfold cieBody
  cases h : cie.personality <;> cases h2 : cie.lsda_encoding <;>
    · simp [u32bytes_length]

/-- Invariant of the serializer fold: once the shared encoding record
has been written (its cached offset is 0), every further function
record appends one well-formed entry whose id field is nonzero. -/
lemma foldl_writeFde_spec (e : RunTimeEndian) (cie : CIE) (fs : List (Nat × FDE))
    (st : WriterState) (bodies : List (List Nat))
    (hst : st.bytes = entryStream e bodies)
    (hoff : st.cie_offsets = [some 0])
    (hcids : ∀ p ∈ fs, p.1 = 0)
    (hbound : (fs.foldl (writeFde e [cie]) st).bytes.length + 4 ≤ 2 ^ 32) :
    ∃ newB : List (List Nat),
      (fs.foldl (writeFde e [cie]) st).bytes = entryStream e (bodies ++ newB) ∧
      newB.length = fs.length ∧
      ∀ b ∈ newB, b.length < 2 ^ 32 ∧ readU32 e b 0 ≠ 0 := by
  induction fs generalizing st bodies with
  | nil => exact ⟨[], by simpa using hst, rfl, by simp⟩
  | cons f fs ih =>
    have hf : f.1 = 0 := hcids f (List.mem_cons_self _ _)
    have hstep : writeFde e [cie] st f =
        appendEntry e st (fdeBody e (st.bytes.length + 4) f.2) := by
      unfold writeFde
      rw [hf, hoff]
      simp
    set B := (fdeBody e (st.bytes.length + 4) f.2).1 with hB
    have hbytes2 : (writeFde e [cie] st f).bytes = entryStream e (bodies ++ [B]) := by
      rw [hstep, entryStream_append, hB, ← hst]
      simp [appendEntry, entryStream, List.append_assoc]
    have hoff2 : (writeFde e [cie] st f).cie_offsets = [some 0] := by
      rw [hstep]
      exact hoff
    rw [List.foldl_cons] at hbound ⊢
    have hmono := foldl_writeFde_length_le e [cie] fs (writeFde e [cie] st f)
    have hlenB : (writeFde e [cie] st f).bytes.length = st.bytes.length + 4 + B.length := by
      rw [hstep, appendEntry_length]
    have hBlt : B.length < 2 ^ 32 := by omega
    have hBkind : readU32 e B 0 ≠ 0 := by
      rw [hB, fdeBody_kind, Nat.mod_eq_of_lt (by omega)]
      omega
    obtain ⟨newB, h1, h2, h3⟩ := ih (writeFde e [cie] st f) (bodies ++ [B]) hbytes2 hoff2
      (fun p hp => hcids p (List.mem_cons_of_mem _ hp)) hbound
    refine ⟨B :: newB, ?_, by simp [h2], ?_⟩
    · rw [h1]
      congr 1
      simp
    · intro b hb
      rcases List.mem_cons.mp hb with rfl | hb
      · exact ⟨hBlt, hBkind⟩
      · exact h3 b hb

/-- `add_function` leaves module and context untouched on any sequence
of skippable inputs (no unwind info, or the Windows-x64 placeholder),
on any context. -/
lemma addAll_skippable (module : ModuleState) (ctx : UnwindContext)
    (calls : List (Nat × Option UnwindInfo))
    (hok : ∀ c ∈ calls, isSkippable c.2 = true) :
    addAll module ctx calls = some (module, ctx) := by
  induction calls with
  | nil => rfl
  | cons c rest ih =>
    obtain ⟨fid, ui⟩ := c
    have hc : isSkippable ui = true := hok _ (List.mem_cons_self _ _)
    have hrest : ∀ c ∈ rest, isSkippable c.2 = true := fun c hc => hok c (List.mem_cons_of_mem _ hc)
    match ui with
    | none => exact ih hrest
    | some (.WindowsX64 w) => exact ih hrest
    | some (.SystemV info) => simp [isSkippable] at hc
    | some (.other tag) => simp [isSkippable] at hc

lemma entryStream_length (e : RunTimeEndian) (bodies : List (List Nat)) :
    (entryStream e bodies).length = (bodies.map fun b => 4 + b.length).sum := by
  induction bodies with
  | nil => simp [entryStream]
  | cons b bs ih =>
    simp only [entryStream, List.map_cons, List.flatten_cons, List.length_append,
      u32bytes_length, List.sum_cons] at ih ⊢
    omega

lemma foldl_add_debug_reloc (rs : List Reloc) (p : ObjectProduct) (sid : Nat) :
    rs.foldl (fun q r => q.add_debug_reloc sid r) p =
      { p with relocs := p.relocs ++ rs.map fun r => (sid, r) } := by
  induction rs generalizing p with
  | nil => simp
  | cons r rs ih =>
    rw [List.foldl_cons, ih]
    obtain ⟨ps, prs⟩ := p
    simp [ObjectProduct.add_debug_reloc]

/-- Serializing a table with one CIE referenced by every one of its
`N ≥ 1` FDEs produces a non-empty stream that decodes to exactly one
shared encoding record followed by `N` function records. -/
lemma write_eh_frame_parse (e : RunTimeEndian) (cie : CIE) (f : Nat × FDE)
    (fs : List (Nat × FDE))
    (hcids : ∀ q ∈ f :: fs, q.1 = 0)
    (hbound :
      (FrameTable.write_eh_frame { cies := [cie], fdes := f :: fs } e).bytes.length + 4 ≤ 2 ^ 32) :
    (FrameTable.write_eh_frame { cies := [cie], fdes := f :: fs } e).bytes ≠ [] ∧
    parseEntries e (FrameTable.write_eh_frame { cies := [cie], fdes := f :: fs } e).bytes =
      true :: List.replicate (f :: fs).length false := by
  have hf : f.1 = 0 := hcids f (List.mem_cons_self _ _)
  have hunfold : (FrameTable.write_eh_frame { cies := [cie], fdes := f :: fs } e).bytes =
      (fs.foldl (writeFde e [cie])
        (writeFde e [cie] { bytes := [], relocs := [], cie_offsets := [none] } f)).bytes := rfl
  -- the first fold step writes the CIE entry, caches its offset 0, then
  -- writes the first FDE entry
  have hstep : writeFde e [cie] { bytes := [], relocs := [], cie_offsets := [none] } f =
      appendEntry e
        { appendEntry e { bytes := [], relocs := [], cie_offsets := [none] } (cieBody e cie) with
          cie_offsets := [some 0] }
        (fdeBody e
          ((appendEntry e { bytes := [], relocs := [], cie_offsets := [none] }
              (cieBody e cie)).bytes.length + 4 - 0) f.2) := by
    unfold writeFde
    rw [hf]
    rfl
  have hbytes1 : (writeFde e [cie] { bytes := [], relocs := [], cie_offsets := [none] } f).bytes =
      entryStream e [(cieBody e cie).1,
        (fdeBody e
          ((appendEntry e { bytes := [], relocs := [], cie_offsets := [none] }
              (cieBody e cie)).bytes.length + 4 - 0) f.2).1] := by
    rw [hstep]
    simp [appendEntry, entryStream, List.append_assoc]
  have hoff1 : (writeFde e [cie]
      { bytes := [], relocs := [], cie_offsets := [none] } f).cie_offsets = [some 0] := by
    rw [hstep]
    rfl
  rw [hunfold] at hbound ⊢
  obtain ⟨newB, hN1, hN2, hN3⟩ := foldl_writeFde_spec e cie fs _ _ hbytes1 hoff1
    (fun q hq => hcids q (List.mem_cons_of_mem _ hq)) hbound
  -- abbreviations for the two leading bodies
  generalize hB0 : (cieBody e cie).1 = B0 at hN1 hbytes1
  generalize hQ : (appendEntry e { bytes := [], relocs := [], cie_offsets := [none] }
      (cieBody e cie)).bytes.length + 4 - 0 = Q at hN1 hbytes1
  generalize hB1 : (fdeBody e Q f.2).1 = B1 at hN1 hbytes1
  -- length bookkeeping
  have hQval : Q = 8 + B0.length := by
    rw [← hQ, appendEntry_length, ← hB0]
    simp
    omega
  have hsum : (fs.foldl (writeFde e [cie])
      (writeFde e [cie] { bytes := [], relocs := [], cie_offsets := [none] } f)).bytes.length =
      (4 + B0.length) + ((4 + B1.length) + (newB.map fun b => 4 + b.length).sum) := by
    rw [hN1, entryStream_length]
    simp
  have hB0lt : B0.length < 2 ^ 32 := by omega
  have hB1lt : B1.length < 2 ^ 32 := by omega
  have hQlt : Q < 2 ^ 32 := by omega
  -- decode
  have hwf : ∀ b ∈ ([B0, B1] ++ newB), b.length < 2 ^ 32 := by
    intro b hb
    rcases List.mem_append.mp hb with hb | hb
    · rcases List.mem_cons.mp hb with rfl | hb
      · exact hB0lt
      · rcases List.mem_cons.mp hb with rfl | hb
        · exact hB1lt
        · simp at hb
    · exact (hN3 b hb).1
  have hkind0 : readU32 e B0 0 = 0 := by rw [← hB0]; exact cieBody_kind e cie
  have hkind1 : readU32 e B1 0 ≠ 0 := by
    rw [← hB1, fdeBody_kind, Nat.mod_eq_of_lt hQlt]
    omega
  have hmapNew : newB.map (fun b => decide (readU32 e b 0 = 0)) =
      List.replicate newB.length false := by
    refine List.eq_replicate_iff.mpr ⟨by simp, ?_⟩
    intro x hx
    obtain ⟨b, hb, rfl⟩ := List.mem_map.mp hx
    exact decide_eq_false (hN3 b hb).2
  constructor
  · rw [hN1]
    intro hcontra
    have := congrArg List.length hcontra
    rw [entryStream_length] at this
    simp at this
  · rw [hN1, parseEntries_entryStream e _ (by simpa using hwf)]
    simp only [List.map_append, List.map_cons, List.map_nil, hmapNew, hN2]
    rw [decide_eq_true (by rw [hkind0]), decide_eq_false hkind1]
    simp [List.replicate_succ]

/-- C1 (counterexample): a context whose target supplied no common
encoding record does NOT survive every `add_function` call: a call
whose compiled function carries System-V unwind info panics
(`cie_id.unwrap()`), modelled as a `none` result. -/
theorem C1_counterexample :
    (UnwindContext.new noCieModule false).2.cie_id = none ∧
    (UnwindContext.new noCieModule false).2.add_function noCieModule 0
      (some (.SystemV sampleInfo)) = none :=
  ⟨rfl, rfl⟩

/-- C1 (amended): for every context constructed against a target that
supplies no common encoding record, construction leaves the module
unchanged, and any number of subsequent `add_function` calls produces
no function record and never fails, provided each compiled function
carries either no unwind info or the Windows-x64 placeholder
variant. -/
theorem C1_no_cie_add_function_noop (m : ModuleState) (pic : Bool)
    (hm : m.systemv_cie = none) (calls : List (Nat × Option UnwindInfo))
    (hok : ∀ c ∈ calls, isSkippable c.2 = true) :
    (UnwindContext.new m pic).1 = m ∧
    (UnwindContext.new m pic).2.cie_id = none ∧
    addAll m (UnwindContext.new m pic).2 calls = some (m, (UnwindContext.new m pic).2) := by
  refine ⟨?_, ?_, addAll_skippable _ _ _ hok⟩ <;> simp [UnwindContext.new, hm]

/-- C1 witness: the amended statement at a concrete module and a
concrete three-call sequence. -/
theorem C1_no_cie_add_function_noop_witness :
    (UnwindContext.new noCieModule true).1 = noCieModule ∧
    (UnwindContext.new noCieModule true).2.cie_id = none ∧
    addAll noCieModule (UnwindContext.new noCieModule true).2
        [(0, none), (1, some (.WindowsX64 [5])), (2, none)] =
      some (noCieModule, (UnwindContext.new noCieModule true).2) :=
  C1_no_cie_add_function_noop noCieModule true rfl
    [(0, none), (1, some (.WindowsX64 [5])), (2, none)] (by decide)

/-- C2 (counterexample): with the position-independence flag false the
claim requires the personality reference to be stored under the
absolute-pointer encoding, but the code stores it under the
PC-relative signed 4-byte encoding. -/
theorem C2_counterexample :
    ((UnwindContext.new sampleModule false).2.frame_table.cies.map
        fun c => c.personality.map Prod.fst) =
      [some (DW_EH_PE_pcrel ||| DW_EH_PE_sdata4)] ∧
    DW_EH_PE_pcrel ||| DW_EH_PE_sdata4 ≠ DW_EH_PE_absptr :=
  ⟨rfl, by decide⟩

/-- C2 (amended): when the target supports the unwind model, the
personality routine's address is stored in the common encoding record
under the PC-relative signed 4-byte encoding regardless of the
position-independence flag, and the address is that of the
freshly-declared personality function. -/
theorem C2_personality_encoding (m : ModuleState) (cie0 : CIE) (pic : Bool)
    (h : m.systemv_cie = some cie0) :
    ((UnwindContext.new m pic).2.frame_table.cies.map fun c => c.personality) =
      [some (DW_EH_PE_pcrel ||| DW_EH_PE_sdata4, Address.func m.func_decls.length)] := by
  cases pic <;>
    simp [UnwindContext.new, h, ModuleState.declare_function, FrameTable.add_cie,
      FrameTable.default]

/-- C2 witness: the amended statement at a concrete module, flag
false. -/
theorem C2_personality_encoding_witness :
    ((UnwindContext.new sampleModule false).2.frame_table.cies.map fun c => c.personality) =
      [some (DW_EH_PE_pcrel ||| DW_EH_PE_sdata4, Address.func sampleModule.func_decls.length)] :=
  C2_personality_encoding sampleModule sampleCIE false rfl

/-- C3: for a function whose unwind info is the System-V variant,
`add_function` defines exactly one new read-only data object whose
contents are the function's linkage-name bytes followed by exactly one
zero byte and nothing else, placed in the exception-table section, and
the appended function record's auxiliary-data (lsda) reference is that
object's address. -/
theorem C3_lsda_blob (self : UnwindContext) (m : ModuleState) (fid : Nat)
    (info : SystemVInfo) (cid : Nat) (h : self.cie_id = some cid) :
    self.add_function m fid (some (.SystemV info)) =
      some
        ({ m with
            data_decl_count := m.data_decl_count + 1,
            data_defs := m.data_defs ++
              [(m.data_decl_count,
                { init := m.linkage_name fid ++ [0],
                  segment_section := some ("", ".cranelift_except_table") })] },
         { self with
            frame_table := self.frame_table.add_fde cid
              { address := .func fid, len := info.len, instructions := info.instructions,
                lsda := some (.data m.data_decl_count) } }) := by
  simp [UnwindContext.add_function, h, ModuleState.declare_anonymous_data,
    ModuleState.define_data, SystemVInfo.to_fde]

/-- C3 witness: the statement at the concrete constructed context and
module. -/
theorem C3_lsda_blob_witness :
    builtCtx.add_function builtModule 0 (some (.SystemV sampleInfo)) =
      some
        ({ builtModule with
            data_decl_count := builtModule.data_decl_count + 1,
            data_defs := builtModule.data_defs ++
              [(builtModule.data_decl_count,
                { init := builtModule.linkage_name 0 ++ [0],
                  segment_section := some ("", ".cranelift_except_table") })] },
         { builtCtx with
            frame_table := builtCtx.frame_table.add_fde 0
              { address := .func 0, len := sampleInfo.len,
                instructions := sampleInfo.instructions,
                lsda := some (.data builtModule.data_decl_count) } }) :=
  C3_lsda_blob builtCtx builtModule 0 sampleInfo 0 rfl

/-- C4: `emit` serializes the table; if the serialized bytes are empty
it leaves the object product untouched (no section, no relocations);
if the context holds `N ≥ 1` function records, all referencing the one
shared encoding record, it adds exactly one debug section whose
contents decode to exactly one shared encoding record plus `N`
function records, and replays every relocation produced during
serialization against that section. -/
theorem C4_emit_section (ctx : UnwindContext) (p : ObjectProduct) (cie : CIE)
    (hc : ctx.frame_table.cies = [cie])
    (hids : ∀ q ∈ ctx.frame_table.fdes, q.1 = 0)
    (hbound : (ctx.frame_table.write_eh_frame ctx.endian).bytes.length + 4 ≤ 2 ^ 32) :
    ((ctx.frame_table.write_eh_frame ctx.endian).bytes = [] → ctx.emit p = p) ∧
    (ctx.frame_table.fdes ≠ [] →
      (ctx.emit p).sections = p.sections ++
        [(SectionId.EhFrame, (ctx.frame_table.write_eh_frame ctx.endian).bytes)] ∧
      parseEntries ctx.endian (ctx.frame_table.write_eh_frame ctx.endian).bytes =
        true :: List.replicate ctx.frame_table.fdes.length false ∧
      (ctx.emit p).relocs = p.relocs ++
        (ctx.frame_table.write_eh_frame ctx.endian).relocs.map
          fun r => (p.sections.length, r)) := by
  constructor
  · intro h
    simp [UnwindContext.emit, h]
  · intro hne
    cases hfd : ctx.frame_table.fdes with
    | nil => exact absurd hfd hne
    | cons f fs =>
      have htbl : ctx.frame_table = { cies := [cie], fdes := f :: fs } := by
        rw [← hc, ← hfd]
      have hcids : ∀ q ∈ f :: fs, q.1 = 0 := by
        rw [← hfd]
        exact hids
      have hbound2 : (FrameTable.write_eh_frame { cies := [cie], fdes := f :: fs }
          ctx.endian).bytes.length + 4 ≤ 2 ^ 32 := by
        rw [← htbl]
        exact hbound
      obtain ⟨hbne, hparse⟩ := write_eh_frame_parse ctx.endian cie f fs hcids hbound2
      have hbne2 : (ctx.frame_table.write_eh_frame ctx.endian).bytes ≠ [] := by
        rw [htbl]
        exact hbne
      have hfalse : (ctx.frame_table.write_eh_frame ctx.endian).bytes.isEmpty = false := by
        cases hby : (ctx.frame_table.write_eh_frame ctx.endian).bytes with
        | nil => exact absurd hby hbne2
        | cons a l => rfl
      have hemit : ctx.emit p =
          (ctx.frame_table.write_eh_frame ctx.endian).relocs.foldl
            (fun q r => q.add_debug_reloc p.sections.length r)
            { p with sections := p.sections ++
                [(SectionId.EhFrame, (ctx.frame_table.write_eh_frame ctx.endian).bytes)] } := by
        simp [UnwindContext.emit, hfalse, ObjectProduct.add_debug_section]
      rw [hemit, foldl_add_debug_reloc]
      refine ⟨rfl, ?_, rfl⟩
      rw [htbl]
      exact hparse

/-- C4 witness: the statement at the concrete one-record context and
an empty object product. -/
theorem C4_emit_section_witness :
    ((oneFdeCtx.frame_table.write_eh_frame oneFdeCtx.endian).bytes = [] →
      oneFdeCtx.emit emptyProduct = emptyProduct) ∧
    (oneFdeCtx.frame_table.fdes ≠ [] →
      (oneFdeCtx.emit emptyProduct).sections = emptyProduct.sections ++
        [(SectionId.EhFrame, (oneFdeCtx.frame_table.write_eh_frame oneFdeCtx.endian).bytes)] ∧
      parseEntries oneFdeCtx.endian
          (oneFdeCtx.frame_table.write_eh_frame oneFdeCtx.endian).bytes =
        true :: List.replicate oneFdeCtx.frame_table.fdes.length false ∧
      (oneFdeCtx.emit emptyProduct).relocs = emptyProduct.relocs ++
        (oneFdeCtx.frame_table.write_eh_frame oneFdeCtx.endian).relocs.map
          fun r => (emptyProduct.sections.length, r)) :=
  C4_emit_section oneFdeCtx emptyProduct builtCIE (by decide) (by decide) (by decide)

/-- C6 (divergence witness): on a table with exactly one function
record, just-in-time registration produces a 62-byte buffer whose final
4 bytes are zero; on the non-distinguished platforms the registration
primitive is called exactly once with the whole buffer (offset 0), and
on an empty table no call is made — all as claimed.  But on macOS the
walking loop calls `__register_frame` TWICE, not once: at offset 23
(the function record) and again at offset 58 = 62 - 4, which is the
appended 4-byte zero terminator, not a function record. -/
theorem C6_macos_registers_terminator :
    oneFdeCtx.frame_table.fdes.length = 1 ∧
    (oneFdeCtx.register_jit .macos sampleAddr).calls = [23, 58] ∧
    ((oneFdeCtx.register_jit .macos sampleAddr).buffer.getD []).length = 62 ∧
    ((oneFdeCtx.register_jit .macos sampleAddr).buffer.getD []).drop 58 = [0, 0, 0, 0] ∧
    (oneFdeCtx.register_jit .otherUnix sampleAddr).calls = [0] ∧
    (builtCtx.register_jit .macos sampleAddr).calls = [] ∧
    (builtCtx.register_jit .macos sampleAddr).buffer = none := by
  decide

/-- C5: when the target supports the unwind model, the committed
encoding record's fde address encoding and lsda encoding are both
PC-relative signed 4-byte if the position-independence flag is true
and both absolute-pointer if it is false. -/
theorem C5_address_encodings (m : ModuleState) (cie0 : CIE) (pic : Bool)
    (h : m.systemv_cie = some cie0) :
    ((UnwindContext.new m pic).2.frame_table.cies.map
        fun c => (c.fde_address_encoding, c.lsda_encoding)) =
      [if pic then
        (DW_EH_PE_pcrel ||| DW_EH_PE_sdata4, some (DW_EH_PE_pcrel ||| DW_EH_PE_sdata4))
       else (DW_EH_PE_absptr, some DW_EH_PE_absptr)] := by
  cases pic <;>
    simp [UnwindContext.new, h, ModuleState.declare_function, FrameTable.add_cie,
      FrameTable.default]

/-- C5 witness: the statement at a concrete module and flag true. -/
theorem C5_address_encodings_witness :
    ((UnwindContext.new sampleModule true).2.frame_table.cies.map
        fun c => (c.fde_address_encoding, c.lsda_encoding)) =
      [if true then
        (DW_EH_PE_pcrel ||| DW_EH_PE_sdata4, some (DW_EH_PE_pcrel ||| DW_EH_PE_sdata4))
       else (DW_EH_PE_absptr, some DW_EH_PE_absptr)] :=
  C5_address_encodings sampleModule sampleCIE true rfl

/-- C7: `add_function` matches the closed variant set exhaustively:
the Windows-x64 variant produces no record and no failure, and every
variant outside System-V and Windows-x64 fails immediately
(`unimplemented!`, modelled as `none`). -/
theorem C7_exhaustive_variants (self : UnwindContext) (m : ModuleState) (fid : Nat) :
    (∀ w, self.add_function m fid (some (.WindowsX64 w)) = some (m, self)) ∧
    (∀ tag, self.add_function m fid (some (.other tag)) = none) :=
  ⟨fun _ => rfl, fun _ => rfl⟩

/-- C8: a function whose compiled code yields no unwind info is a
silent no-op: module and context come back unchanged and no failure
occurs. -/
theorem C8_no_unwind_info_noop (self : UnwindContext) (m : ModuleState) (fid : Nat) :
    self.add_function m fid none = some (m, self) :=
  rfl

/-- C10: on Windows the just-in-time registration body is empty: no
buffer is produced and no frame-registration call is made, for every
context and address assignment. -/
theorem C10_windows_jit_noop (self : UnwindContext) (addr_of : Address → Nat) :
    self.register_jit .windows addr_of = { calls := [], buffer := none } :=
  rfl

end Unwind
